import Mathlib

/-!
Verification development for the bybit-trader decision-and-risk core.

Shallow embedding of:
- `src/risk/risk-manager.ts` (RiskManager: sizing gates, drawdown circuit
  breakers, kill switch, heartbeat);
- the indicator library and `Backtester` (`src/backtest/backtester.ts`);
- `src/backtest/walk-forward.ts` (WalkForwardEngine).

Conventions of the embedding:
- JS numbers are modelled as `ℚ` (the code paths verified here only use
  field arithmetic, `Math.abs`, `Math.min`/`Math.max`; `Math.sqrt` in the
  walk-forward Sharpe is modelled over `ℝ`).
- `Date` values are modelled as natural-number timestamps in milliseconds
  since the UTC epoch; every call site of `new Date()` / `Date.now()` in a
  state-mutating method becomes an explicit `now : ℕ` argument.
- The JS `Map<string, PositionState>` is modelled as an insertion-ordered
  association list with `Map.get`/`Map.set`/`Map.delete` semantics.
- The asynchronous kill-switch callback is modelled by the trigger returning,
  next to the updated state, the list of states at which the external handler
  is invoked (the mutations in `triggerKillSwitch` happen before the `await`
  of the handler, so the handler observes the updated state).
-/

namespace BybitTrader

/-- Side of a position, `"long" | "short"` in the source. -/
inductive Side where
  | long
  | short
  deriving Repr, DecidableEq

/-- Halt reasons; the source stores strings, here the daily-drawdown message
is an atom and the kill-switch message keeps its free-form reason text
(`KILL SWITCH: <reason>`). -/
inductive HaltReason where
  | dailyDrawdown
  | killSwitch (reason : String)
  deriving Repr, DecidableEq

/-- `RiskConfig` of `risk-manager.ts`. -/
structure RiskConfig where
  maxRiskPerTrade : ℚ
  kellyFraction : ℚ
  dailyDrawdownLimit : ℚ
  weeklyDrawdownLimit : ℚ
  totalDrawdownLimit : ℚ
  weeklyReductionFactor : ℚ
  maxConcurrentPositions : ℕ
  maxSingleAssetPct : ℚ
  heartbeatIntervalMs : ℕ
  heartbeatTimeoutMs : ℕ
  deriving Repr, DecidableEq

/-- `DEFAULT_RISK_CONFIG` of `risk-manager.ts`. -/
def DEFAULT_RISK_CONFIG : RiskConfig where
  maxRiskPerTrade := 2 / 100
  kellyFraction := 25 / 100
  dailyDrawdownLimit := -(3 / 100)
  weeklyDrawdownLimit := -(7 / 100)
  totalDrawdownLimit := -(15 / 100)
  weeklyReductionFactor := 1 / 2
  maxConcurrentPositions := 5
  maxSingleAssetPct := 25 / 100
  heartbeatIntervalMs := 5 * 60 * 1000
  heartbeatTimeoutMs := 5 * 60 * 1000

/-- `PositionState` of `risk-manager.ts`. -/
structure PositionState where
  symbol : String
  side : Side
  entryPrice : ℚ
  quantity : ℚ
  notionalValue : ℚ
  leverage : ℚ
  stopLoss : Option ℚ
  takeProfit : Option ℚ
  openedAt : ℕ
  deriving Repr, DecidableEq

/-- `EquitySnapshot` of `risk-manager.ts`. -/
structure EquitySnapshot where
  timestamp : ℕ
  equity : ℚ
  deriving Repr, DecidableEq

/-- Insertion-ordered association list standing in for the JS
`Map<string, PositionState>`. -/
abbrev Positions := List (String × PositionState)

/-- `Map.get`: the value stored under `sym`, if any. -/
def posGet (ps : Positions) (sym : String) : Option PositionState :=
  (ps.find? (fun p => p.1 == sym)).map (fun p => p.2)

/-- `Map.set`: overwrite in place if the key is present, else append. -/
def posSet (ps : Positions) (sym : String) (v : PositionState) : Positions :=
  if ps.any (fun p => p.1 == sym) then
    ps.map (fun p => if p.1 == sym then (sym, v) else p)
  else
    ps ++ [(sym, v)]

/-- `Map.delete`. -/
def posDelete (ps : Positions) (sym : String) : Positions :=
  ps.filter (fun p => ¬(p.1 == sym))

/-- `RiskState` of `risk-manager.ts`. -/
structure RiskState where
  startingEquity : ℚ
  currentEquity : ℚ
  peakEquity : ℚ
  positions : Positions
  equityHistory : List EquitySnapshot
  dailyPnL : ℚ
  weeklyPnL : ℚ
  totalPnL : ℚ
  dailyResetAt : ℕ
  weeklyResetAt : ℕ
  isHalted : Bool
  haltReason : Option HaltReason
  haltedAt : Option ℕ
  lastHeartbeat : ℕ
  killSwitchTriggered : Bool
  deriving Repr, DecidableEq

/-- Milliseconds in a UTC day. -/
def dayMs : ℕ := 86400000

/-- `getNextDailyReset`: the next UTC midnight strictly after flooring
`from` to its UTC day (`setUTCHours(0,0,0,0)` then `+1` day). -/
def getNextDailyReset (fromMs : ℕ) : ℕ :=
  (fromMs / dayMs + 1) * dayMs

/-- `getNextWeeklyReset`: next UTC Monday midnight.  The UTC epoch day
(1970-01-01) was a Thursday, so `getUTCDay() = (days + 4) % 7`. -/
def getNextWeeklyReset (fromMs : ℕ) : ℕ :=
  let day := (fromMs / dayMs + 4) % 7
  let daysUntilMonday := if day = 0 then 1 else 8 - day
  (fromMs / dayMs + daysUntilMonday) * dayMs

/-- The `RiskManager` constructor: initial `RiskState` for a given starting
equity at time `now`. -/
def mkRiskState (startingEquity : ℚ) (now : ℕ) : RiskState where
  startingEquity := startingEquity
  currentEquity := startingEquity
  peakEquity := startingEquity
  positions := []
  equityHistory := [⟨now, startingEquity⟩]
  dailyPnL := 0
  weeklyPnL := 0
  totalPnL := 0
  dailyResetAt := getNextDailyReset now
  weeklyResetAt := getNextWeeklyReset now
  isHalted := false
  haltReason := none
  haltedAt := none
  lastHeartbeat := now
  killSwitchTriggered := false

/-- `triggerKillSwitch`.  Besides the updated state it returns the list of
states at which the registered external handler runs: the source mutates
`killSwitchTriggered` / `isHalted` / `haltReason` / `haltedAt` first and only
then awaits the callback, so the handler (when one is registered) observes
exactly the updated state; a call while already triggered returns without
touching state or handler. -/
def triggerKillSwitch (s : RiskState) (reason : String) (now : ℕ) :
    RiskState × List RiskState :=
  if s.killSwitchTriggered then
    (s, [])
  else
    let s' := { s with
      killSwitchTriggered := true
      isHalted := true
      haltReason := some (.killSwitch reason)
      haltedAt := some now }
    (s', [s'])

/-- Reason tags for `RiskCheckResult.reason`; the source carries formatted
strings, kept here as atoms, one per `return` site of `checkTrade`. -/
inductive CheckReason where
  | killSwitchActive
  | tradingHalted
  | maxPositionsReached
  | singleAssetLimitExceeded
  | reducedToConcentrationLimit
  | drawdownKillSwitch
  | allChecksPassed
  deriving Repr, DecidableEq

/-- `RiskCheckResult` of `risk-manager.ts`. -/
inductive RiskCheckResult where
  | allowed (adjustedQty : ℚ) (reason : CheckReason)
  | rejected (reason : CheckReason)
  deriving Repr, DecidableEq

/-- `checkTrade`: the ordered pre-trade gate.  Returns the check result
together with the state after the call (step 5 triggers the kill switch as a
side effect; every other path leaves the state unchanged). -/
def checkTrade (cfg : RiskConfig) (s : RiskState) (symbol : String)
    (_side : Side) (quantity price _leverage : ℚ) (now : ℕ) :
    RiskCheckResult × RiskState :=
  -- 1. Kill switch check
  if s.killSwitchTriggered then
    (.rejected .killSwitchActive, s)
  -- 2. Halt check (daily drawdown)
  else if s.isHalted then
    (.rejected .tradingHalted, s)
  -- 3. Max concurrent positions
  else if cfg.maxConcurrentPositions ≤ s.positions.length
      ∧ posGet s.positions symbol = none then
    (.rejected .maxPositionsReached, s)
  else
    -- 4. Single asset concentration limit
    let notionalValue := quantity * price
    let existingNotional := ((posGet s.positions symbol).map
      (fun p => p.notionalValue)).getD 0
    let totalExposure := existingNotional + notionalValue
    let concentrationPct := totalExposure / s.currentEquity
    if cfg.maxSingleAssetPct < concentrationPct then
      let maxAllowed := cfg.maxSingleAssetPct * s.currentEquity
      let allowedNotional := maxAllowed - existingNotional
      if allowedNotional ≤ 0 then
        (.rejected .singleAssetLimitExceeded, s)
      else
        (.allowed (allowedNotional / price) .reducedToConcentrationLimit, s)
    else
      -- 5. Total drawdown check
      let totalDrawdown := (s.currentEquity - s.peakEquity) / s.peakEquity
      if totalDrawdown ≤ cfg.totalDrawdownLimit then
        (.rejected .drawdownKillSwitch,
          (triggerKillSwitch s "Total drawdown limit breached" now).1)
      else
        -- All checks passed
        (.allowed quantity .allChecksPassed, s)

/-- `openPosition`: store (or overwrite) the position for `symbol`. -/
def openPosition (s : RiskState) (symbol : String) (side : Side)
    (entryPrice quantity leverage : ℚ) (stopLoss takeProfit : Option ℚ)
    (now : ℕ) : RiskState :=
  let p : PositionState :=
    ⟨symbol, side, entryPrice, quantity, quantity * entryPrice, leverage,
      stopLoss, takeProfit, now⟩
  { s with positions := posSet s.positions symbol p }

/-- `checkPeriodResets`: apply any due daily / weekly reset.  The daily
reset zeroes `dailyPnL` and lifts a halt only when the kill switch is not
triggered; the weekly reset zeroes `weeklyPnL` only. -/
def checkPeriodResets (s : RiskState) (now : ℕ) : RiskState :=
  let s1 :=
    if s.dailyResetAt ≤ now then
      let s' := { s with dailyPnL := 0, dailyResetAt := getNextDailyReset now }
      if s'.isHalted ∧ ¬s'.killSwitchTriggered then
        { s' with isHalted := false, haltReason := none, haltedAt := none }
      else s'
    else s
  if s1.weeklyResetAt ≤ now then
    { s1 with weeklyPnL := 0, weeklyResetAt := getNextWeeklyReset now }
  else s1

/-- `checkDrawdownLimits`: period resets, then the daily-drawdown halt
(idempotent: only set when not already halted), then the total-drawdown
kill switch. -/
def checkDrawdownLimits (cfg : RiskConfig) (s : RiskState) (now : ℕ) :
    RiskState :=
  let s1 := checkPeriodResets s now
  let dailyDrawdownPct := s1.dailyPnL / s1.currentEquity
  let s2 :=
    if dailyDrawdownPct ≤ cfg.dailyDrawdownLimit ∧ ¬s1.isHalted then
      { s1 with isHalted := true, haltReason := some .dailyDrawdown,
                haltedAt := some now }
    else s1
  let totalDrawdown := (s2.currentEquity - s2.peakEquity) / s2.peakEquity
  if totalDrawdown ≤ cfg.totalDrawdownLimit then
    (triggerKillSwitch s2 "Total drawdown exceeds limit" now).1
  else s2

/-- `isWeeklyBreached`. -/
def isWeeklyBreached (cfg : RiskConfig) (s : RiskState) : Bool :=
  decide (s.weeklyPnL / s.currentEquity ≤ cfg.weeklyDrawdownLimit)

/-- `closePosition`: realize PnL, update equity / PnL counters, raise the
peak if exceeded, append an equity snapshot, drop the position, then
re-check drawdown limits.  Returns the realized PnL with the new state
(`0` and the unchanged state when no position exists for `symbol`). -/
def closePosition (cfg : RiskConfig) (s : RiskState) (symbol : String)
    (exitPrice : ℚ) (now : ℕ) : ℚ × RiskState :=
  match posGet s.positions symbol with
  | none => (0, s)
  | some position =>
    let priceDiff :=
      match position.side with
      | .long => exitPrice - position.entryPrice
      | .short => position.entryPrice - exitPrice
    let pnl := priceDiff * position.quantity * position.leverage
    let s1 := { s with
      currentEquity := s.currentEquity + pnl
      dailyPnL := s.dailyPnL + pnl
      weeklyPnL := s.weeklyPnL + pnl
      totalPnL := s.totalPnL + pnl }
    let s2 :=
      if s1.peakEquity < s1.currentEquity then
        { s1 with peakEquity := s1.currentEquity }
      else s1
    let snap : EquitySnapshot := ⟨now, s2.currentEquity⟩
    let s3 := { s2 with equityHistory := s2.equityHistory ++ [snap] }
    let s4 := { s3 with positions := posDelete s3.positions symbol }
    (pnl, checkDrawdownLimits cfg s4 now)

/-- `updateEquity`: refresh equity from the exchange balance, update PnL
counters and the peak, append a snapshot, trim the history to the last
1000 entries, then re-check drawdown limits. -/
def updateEquity (cfg : RiskConfig) (s : RiskState) (newEquity : ℚ)
    (now : ℕ) : RiskState :=
  let pnlDelta := newEquity - s.currentEquity
  let s1 := { s with
    currentEquity := newEquity
    dailyPnL := s.dailyPnL + pnlDelta
    weeklyPnL := s.weeklyPnL + pnlDelta
    totalPnL := newEquity - s.startingEquity }
  let s2 :=
    if s1.peakEquity < newEquity then { s1 with peakEquity := newEquity }
    else s1
  let s3 := { s2 with equityHistory := s2.equityHistory ++ [⟨now, newEquity⟩] }
  let s4 :=
    if 1000 < s3.equityHistory.length then
      { s3 with
        equityHistory := s3.equityHistory.drop (s3.equityHistory.length - 1000) }
    else s3
  checkDrawdownLimits cfg s4 now

/-- `resetKillSwitch`: manual operator reset, optionally reseeding
`currentEquity` and `peakEquity`. -/
def resetKillSwitch (s : RiskState) (newEquity : Option ℚ) : RiskState :=
  let s1 := { s with
    killSwitchTriggered := false
    isHalted := false
    haltReason := none
    haltedAt := none }
  match newEquity with
  | some e => { s1 with currentEquity := e, peakEquity := e }
  | none => s1

/-- `heartbeat`: stamp `lastHeartbeat = now`. -/
def heartbeat (s : RiskState) (now : ℕ) : RiskState :=
  { s with lastHeartbeat := now }

/-- One public `RiskManager` operation, with every internal `new Date()`
supplied as an explicit timestamp. -/
inductive Op where
  | checkTrade (symbol : String) (side : Side) (quantity price leverage : ℚ)
      (now : ℕ)
  | openPosition (symbol : String) (side : Side)
      (entryPrice quantity leverage : ℚ) (stopLoss takeProfit : Option ℚ)
      (now : ℕ)
  | closePosition (symbol : String) (exitPrice : ℚ) (now : ℕ)
  | updateEquity (newEquity : ℚ) (now : ℕ)
  | triggerKillSwitch (reason : String) (now : ℕ)
  | resetKillSwitch (newEquity : Option ℚ)
  | heartbeat (now : ℕ)
  deriving Repr, DecidableEq

/-- The state transition of one public operation. -/
def stepOp (cfg : RiskConfig) (op : Op) (s : RiskState) : RiskState :=
  match op with
  | .checkTrade symbol side quantity price leverage now =>
    (checkTrade cfg s symbol side quantity price leverage now).2
  | .openPosition symbol side entryPrice quantity leverage sl tp now =>
    openPosition s symbol side entryPrice quantity leverage sl tp now
  | .closePosition symbol exitPrice now =>
    (closePosition cfg s symbol exitPrice now).2
  | .updateEquity newEquity now => updateEquity cfg s newEquity now
  | .triggerKillSwitch reason now => (triggerKillSwitch s reason now).1
  | .resetKillSwitch newEquity => resetKillSwitch s newEquity
  | .heartbeat now => heartbeat s now

/-- States reachable from construction by public operations. -/
inductive Reachable (cfg : RiskConfig) : RiskState → Prop where
  | init (startingEquity : ℚ) (now : ℕ) :
      Reachable cfg (mkRiskState startingEquity now)
  | step (op : Op) {s : RiskState} (h : Reachable cfg s) :
      Reachable cfg (stepOp cfg op s)

/-! ### Indicator library (`backtester.ts` / trend-strategy file) -/

/-- `Candle`; the `open` field of the source is spelled `openPrice` (Lean
reserves `open`). -/
structure Candle where
  timestamp : ℕ
  openPrice : ℚ
  high : ℚ
  low : ℚ
  close : ℚ
  volume : ℚ
  deriving Repr, DecidableEq

/-- `candles[i]`; every read below happens at an index the source already
bounds-checked, so the default is never observed. -/
def getC (candles : List Candle) (i : ℕ) : Candle :=
  candles.getD i ⟨0, 0, 0, 0, 0, 0⟩

/-- `SMA(candles, period)`: trailing arithmetic mean of closes, `0` during
warm-up (`i < period - 1`). -/
def SMA (candles : List Candle) (period : ℕ) : List ℚ :=
  (List.range candles.length).map fun i =>
    if i + 1 < period then 0
    else ((((candles.take (i + 1)).drop (i + 1 - period)).map
      (fun c => c.close)).sum) / period

/-- `EMA(candles, period)`.  Each loop iteration pushes exactly one value:
the first close at `i = 0`, a running simple average while `i < period - 1`,
then the exponential recurrence reading `result[i - 1]` (the last pushed
value, always present for `i ≥ 1`). -/
def EMA (candles : List Candle) (period : ℕ) : List ℚ :=
  let multiplier : ℚ := 2 / ((period : ℚ) + 1)
  candles.enum.foldl
    (fun result ic =>
      result ++ [
        if ic.1 = 0 then ic.2.close
        else if ic.1 + 1 < period then
          (((candles.take (ic.1 + 1)).map (fun c => c.close)).sum) / (ic.1 + 1)
        else
          (ic.2.close - result.getLastD 0) * multiplier + result.getLastD 0])
    []

/-- Close-to-close change at index `i` (`0` at index 0), the value the RSI
loop accumulates into its `gains` / `losses` arrays. -/
def closeChange (candles : List Candle) (i : ℕ) : ℚ :=
  if i = 0 then 0 else (getC candles i).close - (getC candles (i - 1)).close

/-- `RSI(candles, period)`: neutral `50` before warm-up (`i < period`),
`100` when the trailing average loss is zero, otherwise
`100 - 100 / (1 + rs)`. -/
def RSI (candles : List Candle) (period : ℕ) : List ℚ :=
  let gains := (List.range candles.length).map fun i =>
    if 0 < closeChange candles i then closeChange candles i else 0
  let losses := (List.range candles.length).map fun i =>
    if closeChange candles i < 0 then |closeChange candles i| else 0
  (List.range candles.length).map fun i =>
    if i = 0 then 50
    else if i < period then 50
    else
      let avgGain := (((gains.take (i + 1)).drop (i + 1 - period)).sum) / period
      let avgLoss := (((losses.take (i + 1)).drop (i + 1 - period)).sum) / period
      if avgLoss = 0 then 100
      else 100 - 100 / (1 + avgGain / avgLoss)

/-- Return type of `MACD`. -/
structure MACDResult where
  macd : List ℚ
  signal : List ℚ
  histogram : List ℚ
  deriving Repr, DecidableEq

/-- `MACD(candles, fast, slow, signal)`: fast EMA minus slow EMA, an
EMA-of-that-difference signal line (one push per index), and their
difference as histogram. -/
def MACD (candles : List Candle) (fastPeriod slowPeriod signalPeriod : ℕ) :
    MACDResult :=
  let fastEMA := EMA candles fastPeriod
  let slowEMA := EMA candles slowPeriod
  let macdLine := fastEMA.enum.map (fun p => p.2 - slowEMA.getD p.1 0)
  let multiplier : ℚ := 2 / ((signalPeriod : ℚ) + 1)
  let signalLine := macdLine.foldl
    (fun acc m =>
      acc ++ [
        if acc.isEmpty then m
        else (m - acc.getLastD 0) * multiplier + acc.getLastD 0])
    []
  let histogram := macdLine.enum.map (fun p => p.2 - signalLine.getD p.1 0)
  ⟨macdLine, signalLine, histogram⟩

/-- Wilder true range of a candle against the previous candle. -/
def trueRange (c prev : Candle) : ℚ :=
  max (c.high - c.low) (max |c.high - prev.close| |c.low - prev.close|)

/-- `ATR(candles, period)`.  The source seeds the output array with a
single `0` *before* the loop, so the empty candle list maps to `[0]`
(length 1), and a list of `n ≥ 1` candles maps to `n` values. -/
def ATR (candles : List Candle) (period : ℕ) : List ℚ :=
  (List.range (candles.length - 1)).foldl
    (fun atr k =>
      let i := k + 1
      let tr := trueRange (getC candles i) (getC candles (i - 1))
      atr ++ [
        if i < period then
          -- simple average of tr and the previously pushed values
          -- (`Math.max(1, i - period + 1)` is 1 throughout this branch)
          let lo := max 1 (i + 1 - period)
          let vals := [tr] ++ (List.range (i - lo)).map (fun j => atr.getD (lo + j) 0)
          vals.sum / (vals.length : ℚ)
        else if i = period then
          (((List.range period).map (fun j =>
            trueRange (getC candles (j + 1)) (getC candles j))).sum) / period
        else
          (atr.getD (i - 1) 0 * ((period : ℚ) - 1) + tr) / period])
    [0]

/-- `ADXResult` of the trend-strategy source. -/
structure ADXResult where
  adx : List ℚ
  plusDI : List ℚ
  minusDI : List ℚ
  deriving Repr, DecidableEq

/-- Running state of the `ADX` main loop. -/
structure ADXState where
  smoothedTR : ℚ
  smoothedPlusDM : ℚ
  smoothedMinusDM : ℚ
  dxValues : List ℚ
  adx : List ℚ
  plusDI : List ℚ
  minusDI : List ℚ

/-- One iteration of the `ADX` main loop: indices `i < period` push zeros
and skip the DX bookkeeping; from `i = period` on, Wilder smoothing is
re-applied (except at `i = period` itself), then `+DI`, `-DI`, `DX` and the
smoothed `ADX` are pushed. -/
def adxStep (period : ℕ) (trueRanges plusDMs minusDMs : List ℚ)
    (st : ADXState) (i : ℕ) : ADXState :=
  if i < period then
    { st with plusDI := st.plusDI ++ [0], minusDI := st.minusDI ++ [0],
              adx := st.adx ++ [0] }
  else
    let st1 :=
      if i = period then st
      else
        { st with
          smoothedTR := st.smoothedTR - st.smoothedTR / period +
            trueRanges.getD i 0
          smoothedPlusDM := st.smoothedPlusDM - st.smoothedPlusDM / period +
            plusDMs.getD i 0
          smoothedMinusDM := st.smoothedMinusDM - st.smoothedMinusDM / period +
            minusDMs.getD i 0 }
    let pDI := if 0 < st1.smoothedTR then st1.smoothedPlusDM / st1.smoothedTR * 100 else 0
    let mDI := if 0 < st1.smoothedTR then st1.smoothedMinusDM / st1.smoothedTR * 100 else 0
    let diSum := pDI + mDI
    let dx := if 0 < diSum then |pDI - mDI| / diSum * 100 else 0
    let dxValues := st1.dxValues ++ [dx]
    let adxVal :=
      if dxValues.length < period then (0 : ℚ)
      else if dxValues.length = period then dxValues.sum / period
      else (st1.adx.getLastD 0 * ((period : ℚ) - 1) + dx) / period
    { st1 with
      dxValues := dxValues
      plusDI := st1.plusDI ++ [pDI]
      minusDI := st1.minusDI ++ [mDI]
      adx := st1.adx ++ [adxVal] }

/-- `ADX(candles, period)`: all-zero series when fewer than `period + 1`
candles; otherwise directional movement, Wilder smoothing seeded with the
sum of the first `period` raw values, and the main loop above. -/
def ADX (candles : List Candle) (period : ℕ) : ADXResult :=
  if candles.length < period + 1 then
    ⟨candles.map (fun _ => 0), candles.map (fun _ => 0), candles.map (fun _ => 0)⟩
  else
    let trueRanges := (List.range candles.length).map fun i =>
      if i = 0 then 0 else trueRange (getC candles i) (getC candles (i - 1))
    let upMove := fun i => (getC candles i).high - (getC candles (i - 1)).high
    let downMove := fun i => (getC candles (i - 1)).low - (getC candles i).low
    let plusDMs := (List.range candles.length).map fun i =>
      if i = 0 then 0
      else if downMove i < upMove i ∧ 0 < upMove i then upMove i else 0
    let minusDMs := (List.range candles.length).map fun i =>
      if i = 0 then 0
      else if upMove i < downMove i ∧ 0 < downMove i then downMove i else 0
    let init : ADXState :=
      { smoothedTR := ((List.range period).map (fun j => trueRanges.getD (j + 1) 0)).sum
        smoothedPlusDM := ((List.range period).map (fun j => plusDMs.getD (j + 1) 0)).sum
        smoothedMinusDM := ((List.range period).map (fun j => minusDMs.getD (j + 1) 0)).sum
        dxValues := []
        adx := []
        plusDI := []
        minusDI := [] }
    let final := (List.range candles.length).foldl
      (adxStep period trueRanges plusDMs minusDMs) init
    ⟨final.adx, final.plusDI, final.minusDI⟩

/-! ### Backtester (`backtester.ts`) -/

/-- Trade direction, `"BUY" | "SELL"` in the source. -/
inductive TradeType where
  | buy
  | sell
  deriving Repr, DecidableEq

/-- `StrategySignal.action` (the optional `reason` string carries no
behaviour and is dropped). -/
inductive SignalAction where
  | buy
  | sell
  | hold
  deriving Repr, DecidableEq

/-- A ledger entry. -/
structure Trade where
  timestamp : ℕ
  type : TradeType
  price : ℚ
  quantity : ℚ
  value : ℚ
  deriving Repr, DecidableEq

/-- `Strategy`: `(candles-so-far, current position) → signal`. -/
def Strategy := List Candle → ℚ → SignalAction

/-- Mutable fields of the `Backtester` during `run`. -/
structure BTState where
  balance : ℚ
  position : ℚ
  trades : List Trade
  balanceHistory : List ℚ
  deriving Repr, DecidableEq

/-- The candle loop of `Backtester.run`: a BUY signal executes only when no
position is held (investing the full balance at the candle close), a SELL
signal only when a position is held (liquidating it fully); every candle
appends the portfolio value to the balance history.  `processed` is the
already-consumed prefix, so the strategy sees `candles.slice(0, i + 1)`. -/
def btLoop (strategy : Strategy) :
    List Candle → List Candle → BTState → BTState
  | _, [], st => st
  | processed, c :: rest, st =>
    let signal := strategy (processed ++ [c]) st.position
    let currentPrice := c.close
    let st1 :=
      if signal = .buy ∧ st.position = 0 then
        let quantity := st.balance / currentPrice
        { st with
          balance := 0
          position := quantity
          trades := st.trades ++
            [⟨c.timestamp, .buy, currentPrice, quantity, st.balance⟩] }
      else if signal = .sell ∧ 0 < st.position then
        let value := st.position * currentPrice
        { st with
          balance := value
          position := 0
          trades := st.trades ++
            [⟨c.timestamp, .sell, currentPrice, st.position, value⟩] }
      else st
    let st2 := { st1 with
      balanceHistory := st1.balanceHistory ++
        [st1.balance + st1.position * currentPrice] }
    btLoop strategy (processed ++ [c]) rest st2

/-- The win/loss pairing of `Backtester.run`: consecutive ledger entries are
consumed two at a time (an unpaired trailing entry is ignored) and the pair
is a win exactly when the second value exceeds the first. -/
def countWinLoss : List Trade → ℕ × ℕ
  | b :: s :: rest =>
    let wl := countWinLoss rest
    if b.value < s.value then (wl.1 + 1, wl.2) else (wl.1, wl.2 + 1)
  | _ => (0, 0)

/-- Largest peak-to-trough drop of an equity curve, peak seeded with the
first sample. -/
def maxDrawdownOf (history : List ℚ) : ℚ :=
  (history.foldl
    (fun acc v =>
      let peak := if acc.1 < v then v else acc.1
      let drawdown := peak - v
      (peak, if acc.2 < drawdown then drawdown else acc.2))
    (history.headD 0, 0)).2

/-- `BacktestResult` (symbol / strategy-name / date fields, which no claim
touches, are omitted). -/
structure BacktestResult where
  initialBalance : ℚ
  finalBalance : ℚ
  totalReturn : ℚ
  totalReturnPercent : ℚ
  totalTrades : ℕ
  winningTrades : ℕ
  losingTrades : ℕ
  winRate : ℚ
  maxDrawdown : ℚ
  maxDrawdownPercent : ℚ
  trades : List Trade
  deriving Repr, DecidableEq

/-- `Backtester.run`: single deterministic pass; balance history starts at
the initial balance; any open position is marked to the last close (`0`
standing in for the undefined last close of an empty window, which no
caller produces). -/
def backtestRun (initialBalance : ℚ) (candles : List Candle)
    (strategy : Strategy) : BacktestResult :=
  let st := btLoop strategy [] candles ⟨initialBalance, 0, [], [initialBalance]⟩
  let finalPrice := ((candles.getLast?).map (fun c => c.close)).getD 0
  let finalBalance := st.balance + st.position * finalPrice
  let totalReturn := finalBalance - initialBalance
  let totalReturnPercent := totalReturn / initialBalance * 100
  let wl := countWinLoss st.trades
  let maxDrawdown := maxDrawdownOf st.balanceHistory
  { initialBalance := initialBalance
    finalBalance := finalBalance
    totalReturn := totalReturn
    totalReturnPercent := totalReturnPercent
    totalTrades := st.trades.length
    winningTrades := wl.1
    losingTrades := wl.2
    winRate := if 0 < st.trades.length then
        (wl.1 : ℚ) / ((wl.1 : ℚ) + (wl.2 : ℚ)) * 100
      else 0
    maxDrawdown := maxDrawdown
    maxDrawdownPercent := maxDrawdown / initialBalance * 100
    trades := st.trades }

/-! ### Walk-forward engine (`walk-forward.ts`) -/

/-- `WalkForwardConfig` (the `maxSharpeThreshold` field feeds only the
overfit verdict, which is not embedded here; see `aggregateOosSharpe`
below for the aggregated Sharpe itself). -/
structure WFConfig where
  inSamplePeriod : ℕ
  outOfSamplePeriod : ℕ
  initialBalance : ℚ
  minTrades : ℕ
  deriving Repr, DecidableEq

/-- The four index bounds of one walk-forward window. -/
structure WFSpan where
  isStart : ℕ
  isEnd : ℕ
  oosStart : ℕ
  oosEnd : ℕ
  deriving Repr, DecidableEq

/-- The window loop of `WalkForwardEngine.run`, spans only: starting at
`start = 0` and advancing by `outOfSamplePeriod`, while
`start + windowSize ≤ candles.length` it emits
`[start, start + inSample)` / `[start + inSample, min(· + oos, n))`, with
the source's early `break` when the out-of-sample slice is shorter than
half its target.  `fuel` bounds the recursion; each iteration needs
`start ≤ n` and advances `start` by `oos ≥ 1`, so `n + 1` units are always
enough (the source loop does not terminate for `oos = 0`). -/
def wfGo (inSample oos n : ℕ) : ℕ → ℕ → List WFSpan
  | 0, _ => []
  | fuel + 1, start =>
    if start + (inSample + oos) ≤ n then
      let isEnd := start + inSample
      let oosEnd := min (isEnd + oos) n
      if ((oosEnd - isEnd : ℕ) : ℚ) < (oos : ℚ) * (1 / 2) then []
      else ⟨start, isEnd, isEnd, oosEnd⟩ :: wfGo inSample oos n fuel (start + oos)
    else []

/-- All window spans the run loop generates for `n` candles. -/
def wfSpans (inSample oos n : ℕ) : List WFSpan :=
  wfGo inSample oos n (n + 1) 0

/-- `WalkForwardWindow` (backtest results attached). -/
structure WFWindow where
  windowIndex : ℕ
  inSampleStart : ℕ
  inSampleEnd : ℕ
  outOfSampleStart : ℕ
  outOfSampleEnd : ℕ
  inSampleResult : BacktestResult
  outOfSampleResult : BacktestResult
  degradationPct : ℚ
  isOverfit : Bool
  deriving Repr, DecidableEq

/-- One walk-forward window: backtest both slices with the same strategy,
compute the IS-to-OOS degradation (`0` when the in-sample return is `0`)
and the per-window overfit flag. -/
def mkWFWindow (initialBalance : ℚ) (candles : List Candle)
    (strategy : Strategy) (idx : ℕ) (sp : WFSpan) : WFWindow :=
  let isCandles := (candles.take sp.isEnd).drop sp.isStart
  let oosCandles := (candles.take sp.oosEnd).drop sp.oosStart
  let isResult := backtestRun initialBalance isCandles strategy
  let oosResult := backtestRun initialBalance oosCandles strategy
  let degradationPct :=
    if isResult.totalReturnPercent ≠ 0 then
      (isResult.totalReturnPercent - oosResult.totalReturnPercent) /
        |isResult.totalReturnPercent| * 100
    else 0
  let isOverfit :=
    decide (70 < degradationPct) ||
      (decide (50 < isResult.totalReturnPercent) &&
        decide (oosResult.totalReturnPercent < 0))
  { windowIndex := idx
    inSampleStart := sp.isStart
    inSampleEnd := sp.isEnd
    outOfSampleStart := sp.oosStart
    outOfSampleEnd := sp.oosEnd
    inSampleResult := isResult
    outOfSampleResult := oosResult
    degradationPct := degradationPct
    isOverfit := isOverfit }

/-- The window-producing part of `WalkForwardEngine.run`: the
insufficient-data guard throws (modelled as `Except.error`), otherwise one
`WalkForwardWindow` per generated span, indexed in order. -/
def wfRunWindows (cfg : WFConfig) (candles : List Candle)
    (strategy : Strategy) : Except String (List WFWindow) :=
  if candles.length < cfg.inSamplePeriod + cfg.outOfSamplePeriod then
    .error "Insufficient data"
  else
    .ok (((wfSpans cfg.inSamplePeriod cfg.outOfSamplePeriod
      candles.length).enum).map
        (fun p => mkWFWindow cfg.initialBalance candles strategy p.1 p.2))

/-- The per-window out-of-sample percentage returns collected by
`aggregateResults` (`oosReturns` in the source). -/
def oosReturnsOf (windows : List WFWindow) : List ℚ :=
  windows.map (fun w => w.outOfSampleResult.totalReturnPercent)

/-- The aggregated Sharpe of `aggregateResults` (lines 193-201 of
`walk-forward.ts`): mean of the per-window out-of-sample returns over
their *sample* standard deviation (divisor `n - 1`), that deviation
defaulting to `1` when only one window exists, scaled by `√n`; `0` when
the deviation is not positive.  `Math.sqrt` forces the model into `ℝ`. -/
noncomputable def aggregateOosSharpe (windows : List WFWindow) : ℝ :=
  let oosReturns := oosReturnsOf windows
  let avgReturn : ℝ := ((oosReturns.sum : ℚ) : ℝ) / (oosReturns.length : ℝ)
  let stdDev : ℝ :=
    if 1 < oosReturns.length then
      Real.sqrt ((oosReturns.map (fun r => ((r : ℚ) - avgReturn) ^ 2)).sum /
        ((oosReturns.length : ℝ) - 1))
    else 1
  if 0 < stdDev then avgReturn / stdDev * Real.sqrt (oosReturns.length : ℝ)
  else 0

/-- Modelled from the spec: "a Sharpe-like ratio over the per-window
out-of-sample percentage returns (mean/population-stdev, annualized by
`sqrt(windowCount)`)" "with 0 when that standard deviation is 0" — the
comparison definition for the refinement claim C7, written from the spec's
words (population standard deviation, divisor `n`). -/
noncomputable def specOosSharpe (windows : List WFWindow) : ℝ :=
  let rs := oosReturnsOf windows
  let mean : ℝ := ((rs.sum : ℚ) : ℝ) / (rs.length : ℝ)
  let popStd : ℝ :=
    Real.sqrt ((rs.map (fun r => ((r : ℚ) - mean) ^ 2)).sum / (rs.length : ℝ))
  if popStd = 0 then 0 else mean / popStd * Real.sqrt (rs.length : ℝ)

/-- Mean of the per-window returns as a real (the spec's and the source's
`avgReturn` agree on this). -/
noncomputable def meanReturn (rs : List ℚ) : ℝ :=
  ((rs.sum : ℚ) : ℝ) / (rs.length : ℝ)

/-- Sample standard deviation (divisor `n - 1`) of the per-window returns:
what `aggregateResults` actually computes for `n ≥ 2`. -/
noncomputable def sampleStdDev (rs : List ℚ) : ℝ :=
  Real.sqrt ((rs.map (fun r => ((r : ℚ) - meanReturn rs) ^ 2)).sum /
    ((rs.length : ℝ) - 1))

/-! ### Predicates and concrete instances used by the theorems below -/

/-- The kill-switch/halt implication that must hold in every reachable
state. -/
def KillImpliesHalted (s : RiskState) : Prop :=
  s.killSwitchTriggered = true → s.isHalted = true

/-- The strict buy/sell alternation of a trade ledger: even positions are
buys, odd positions are sells (so position 0, when present, is a buy). -/
def TradesAlternate (l : List Trade) : Prop :=
  ∀ i (h : i < l.length),
    (l.get ⟨i, h⟩).type = if i % 2 = 0 then TradeType.buy else TradeType.sell

/-- Reachable state for the C1 counterexample: equity refreshed from 1000
down to 800 (which trips the total-drawdown kill switch), then a manual
`resetKillSwitch()` without reseeding equity, leaving
`currentEquity = 800 < peakEquity = 1000` with the kill switch off and no
halt. -/
def c1State : RiskState :=
  resetKillSwitch (updateEquity DEFAULT_RISK_CONFIG (mkRiskState 1000 0) 800 0)
    none

/-- State for the C4 scenario: equity 1000 and an existing BTCUSDT long of
200 notional (entry price 1, quantity 200). -/
def c4State : RiskState :=
  openPosition (mkRiskState 1000 0) "BTCUSDT" .long 1 200 1 none none 0

/-- One open-then-close round trip at price 100 (PnL 0), the pair of calls
that appends exactly one equity snapshot per iteration. -/
def c6OpenClose (cfg : RiskConfig) (s : RiskState) : RiskState :=
  (closePosition cfg (openPosition s "BTCUSDT" .long 100 1 1 none none 0)
    "BTCUSDT" 100 0).2

/-- `n` open/close round trips. -/
def c6Iter (cfg : RiskConfig) : ℕ → RiskState → RiskState
  | 0, s => s
  | n + 1, s => c6Iter cfg n (c6OpenClose cfg s)

/-- A placeholder backtest result (all fields zero). -/
def zeroBacktestResult : BacktestResult :=
  ⟨0, 0, 0, 0, 0, 0, 0, 0, 0, 0, []⟩

/-- A single walk-forward window whose out-of-sample slice returned `+5%`:
the input on which the source's Sharpe (`stdDev` defaulting to 1 for a
single window) and the spec's population-stdev Sharpe (which is 0) differ. -/
def c7Window : WFWindow :=
  { windowIndex := 0
    inSampleStart := 0
    inSampleEnd := 100
    outOfSampleStart := 100
    outOfSampleEnd := 150
    inSampleResult := zeroBacktestResult
    outOfSampleResult := { zeroBacktestResult with totalReturnPercent := 5 }
    degradationPct := 0
    isOverfit := false }

/-- Candle closes 1, 0, 5, 5 for the C10 counterexample: the sell at the
zero close wipes the balance, after which a buy of quantity 0 leaves
`position = 0` and a second consecutive buy can execute. -/
def c10Candles : List Candle :=
  [⟨0, 0, 0, 0, 1, 0⟩, ⟨1, 0, 0, 0, 0, 0⟩, ⟨2, 0, 0, 0, 5, 0⟩,
    ⟨3, 0, 0, 0, 5, 0⟩]

/-- Strategy emitting BUY whenever flat and SELL whenever holding. -/
def c10Strategy : Strategy := fun _ position =>
  if position = 0 then .buy else .sell

/-- A 150-candle constant series (witness input for the window-count
theorem). -/
def flatCandles : List Candle :=
  List.replicate 150 ⟨0, 1, 1, 1, 1, 1⟩

/-- Hold-only strategy (witness input). -/
def holdStrategy : Strategy := fun _ _ => .hold

/-! ### Helper lemmas: what the internal risk-manager steps preserve -/

theorem triggerKillSwitch_peakEquity (s : RiskState) (r : String) (t : ℕ) :
    ((triggerKillSwitch s r t).1).peakEquity = s.peakEquity := by
  unfold triggerKillSwitch
  split <;> rfl

theorem triggerKillSwitch_equityHistory (s : RiskState) (r : String) (t : ℕ) :
    ((triggerKillSwitch s r t).1).equityHistory = s.equityHistory := by
  unfold triggerKillSwitch
  split <;> rfl

theorem triggerKillSwitch_positions (s : RiskState) (r : String) (t : ℕ) :
    ((triggerKillSwitch s r t).1).positions = s.positions := by
  unfold triggerKillSwitch
  split <;> rfl

theorem killImpliesHalted_trigger (s : RiskState) (r : String) (t : ℕ)
    (h : KillImpliesHalted s) : KillImpliesHalted (triggerKillSwitch s r t).1 := by
  unfold triggerKillSwitch
  split
  · exact h
  · intro _
    rfl

theorem checkPeriodResets_peakEquity (s : RiskState) (t : ℕ) :
    (checkPeriodResets s t).peakEquity = s.peakEquity := by
  unfold checkPeriodResets
  dsimp only
  split_ifs <;> rfl

theorem checkPeriodResets_equityHistory (s : RiskState) (t : ℕ) :
    (checkPeriodResets s t).equityHistory = s.equityHistory := by
  unfold checkPeriodResets
  dsimp only
  split_ifs <;> rfl

theorem checkPeriodResets_positions (s : RiskState) (t : ℕ) :
    (checkPeriodResets s t).positions = s.positions := by
  unfold checkPeriodResets
  dsimp only
  split_ifs <;> rfl

theorem killImpliesHalted_resets (s : RiskState) (t : ℕ)
    (h : KillImpliesHalted s) : KillImpliesHalted (checkPeriodResets s t) := by
  unfold checkPeriodResets KillImpliesHalted at *
  dsimp only
  split_ifs with h1 h2 h3 h4 h5 <;> simp_all

theorem checkDrawdownLimits_peakEquity (cfg : RiskConfig) (s : RiskState)
    (t : ℕ) : (checkDrawdownLimits cfg s t).peakEquity = s.peakEquity := by
  unfold checkDrawdownLimits
  dsimp only
  split_ifs <;>
    simp [triggerKillSwitch_peakEquity, checkPeriodResets_peakEquity]

theorem checkDrawdownLimits_equityHistory (cfg : RiskConfig) (s : RiskState)
    (t : ℕ) : (checkDrawdownLimits cfg s t).equityHistory = s.equityHistory := by
  unfold checkDrawdownLimits
  dsimp only
  split_ifs <;>
    simp [triggerKillSwitch_equityHistory, checkPeriodResets_equityHistory]

theorem checkDrawdownLimits_positions (cfg : RiskConfig) (s : RiskState)
    (t : ℕ) : (checkDrawdownLimits cfg s t).positions = s.positions := by
  unfold checkDrawdownLimits
  dsimp only
  split_ifs <;>
    simp [triggerKillSwitch_positions, checkPeriodResets_positions]

theorem killImpliesHalted_cdl (cfg : RiskConfig) (s : RiskState) (t : ℕ)
    (h : KillImpliesHalted s) : KillImpliesHalted (checkDrawdownLimits cfg s t) := by
  unfold checkDrawdownLimits
  have h1 := killImpliesHalted_resets s t h
  dsimp only
  split_ifs with h2 h3 h4
  · exact killImpliesHalted_trigger _ _ _ (by intro _; rfl)
  · intro _; rfl
  · exact killImpliesHalted_trigger _ _ _ h1
  · exact h1

/-- C2: `triggerKillSwitch` called twice with the kill switch initially off
invokes the external handler exactly once — the first call flips
`killSwitchTriggered`, `isHalted` and the halt reason and the handler runs
on that already-updated state; the second call changes nothing and invokes
nothing. -/
theorem c2_kill_switch_idempotent (s : RiskState) (r1 r2 : String)
    (t1 t2 : ℕ) (h : s.killSwitchTriggered = false) :
    (triggerKillSwitch s r1 t1).2 = [(triggerKillSwitch s r1 t1).1]
    ∧ (triggerKillSwitch s r1 t1).1.killSwitchTriggered = true
    ∧ (triggerKillSwitch s r1 t1).1.isHalted = true
    ∧ (triggerKillSwitch s r1 t1).1.haltReason = some (.killSwitch r1)
    ∧ (triggerKillSwitch (triggerKillSwitch s r1 t1).1 r2 t2).1
        = (triggerKillSwitch s r1 t1).1
    ∧ (triggerKillSwitch (triggerKillSwitch s r1 t1).1 r2 t2).2 = [] := by
  simp [triggerKillSwitch, h]

theorem c2_kill_switch_idempotent_witness :
    (mkRiskState 1000 0).killSwitchTriggered = false
    ∧ ((triggerKillSwitch (mkRiskState 1000 0) "drawdown" 5).2
        = [(triggerKillSwitch (mkRiskState 1000 0) "drawdown" 5).1]
      ∧ (triggerKillSwitch (mkRiskState 1000 0) "drawdown" 5).1.killSwitchTriggered = true
      ∧ (triggerKillSwitch (mkRiskState 1000 0) "drawdown" 5).1.isHalted = true
      ∧ (triggerKillSwitch (mkRiskState 1000 0) "drawdown" 5).1.haltReason
          = some (.killSwitch "drawdown")
      ∧ (triggerKillSwitch (triggerKillSwitch (mkRiskState 1000 0) "drawdown" 5).1
          "again" 6).1 = (triggerKillSwitch (mkRiskState 1000 0) "drawdown" 5).1
      ∧ (triggerKillSwitch (triggerKillSwitch (mkRiskState 1000 0) "drawdown" 5).1
          "again" 6).2 = []) :=
  ⟨by decide, c2_kill_switch_idempotent (mkRiskState 1000 0) "drawdown" "again" 5 6
    (by decide)⟩

/-- C4: with equity 1000, a 25% single-asset cap (250 notional) and an
existing 200-notional position on the symbol, a proposed 200-notional trade
at price 1 is allowed with the quantity reduced to 50 — not rejected — and
the state is untouched. -/
theorem c4_concentration_adjusted_qty :
    c4State.killSwitchTriggered = false ∧ c4State.isHalted = false
    ∧ c4State.positions.length < DEFAULT_RISK_CONFIG.maxConcurrentPositions
    ∧ (posGet c4State.positions "BTCUSDT").map (fun p => p.notionalValue)
        = some 200
    ∧ c4State.currentEquity = 1000
    ∧ DEFAULT_RISK_CONFIG.maxSingleAssetPct = 25 / 100
    ∧ (checkTrade DEFAULT_RISK_CONFIG c4State "BTCUSDT" .long 200 1 1 0).1
        = .allowed 50 .reducedToConcentrationLimit
    ∧ (checkTrade DEFAULT_RISK_CONFIG c4State "BTCUSDT" .long 200 1 1 0).2
        = c4State := by
  simp only [c4State, openPosition, mkRiskState, posSet, posGet, checkTrade,
    DEFAULT_RISK_CONFIG, List.any_nil, List.find?, List.map, List.length]
  norm_num

/-- Evaluation of the C1 counterexample state: kill switch and halt off,
current equity 800 against a peak of 1000 (total drawdown −20%), no open
positions. -/
theorem c1State_eq :
    c1State = ⟨1000, 800, 1000, [], [⟨0, 1000⟩, ⟨0, 800⟩], -200, -200, -200,
      86400000, 345600000, false, none, none, 0, false⟩ := by
  simp only [c1State, resetKillSwitch, updateEquity, checkDrawdownLimits,
    checkPeriodResets, triggerKillSwitch, mkRiskState, getNextDailyReset,
    getNextWeeklyReset, dayMs, DEFAULT_RISK_CONFIG]
  norm_num

/-- C1 (counterexample): in a state with the kill switch off, trading not
halted, the position count within limit, and total drawdown at −20% (beyond
the −15% limit), `checkTrade` for 300 notional against 800 equity takes the
step-4 concentration-adjustment path and returns *allowed* with the reduced
quantity, never reaching the step-5 drawdown check: no rejection and no
kill-switch side effect, contradicting the claim. -/
theorem c1_adjusted_path_skips_drawdown_check :
    c1State.killSwitchTriggered = false
    ∧ c1State.isHalted = false
    ∧ c1State.positions.length < DEFAULT_RISK_CONFIG.maxConcurrentPositions
    ∧ (c1State.currentEquity - c1State.peakEquity) / c1State.peakEquity
        ≤ DEFAULT_RISK_CONFIG.totalDrawdownLimit
    ∧ (checkTrade DEFAULT_RISK_CONFIG c1State "BTCUSDT" .long 300 1 1 0).1
        = .allowed 200 .reducedToConcentrationLimit
    ∧ (checkTrade DEFAULT_RISK_CONFIG c1State "BTCUSDT" .long 300 1 1 0).2
        = c1State := by
  rw [c1State_eq]
  simp only [checkTrade, posGet, DEFAULT_RISK_CONFIG, List.find?, List.length]
  norm_num

/-- C1 (amended): *when the step-4 concentration check passes* (total
exposure within `maxSingleAssetPct * equity`), a total drawdown at or
beyond `totalDrawdownLimit` makes `checkTrade` trigger the kill switch and
reject, and the original quantity is allowed exactly when the drawdown
check passes; the step-4-adjusted quantity, by contrast, is returned
without the drawdown check ever running (see the counterexample). -/
theorem c1_drawdown_gate_after_concentration_pass (cfg : RiskConfig)
    (s : RiskState) (symbol : String) (side : Side)
    (quantity price leverage : ℚ) (now : ℕ)
    (hk : s.killSwitchTriggered = false)
    (hh : s.isHalted = false)
    (hp : s.positions.length < cfg.maxConcurrentPositions
      ∨ posGet s.positions symbol ≠ none)
    (hc : (((posGet s.positions symbol).map (fun p => p.notionalValue)).getD 0
        + quantity * price) / s.currentEquity ≤ cfg.maxSingleAssetPct) :
    ((s.currentEquity - s.peakEquity) / s.peakEquity ≤ cfg.totalDrawdownLimit →
      (checkTrade cfg s symbol side quantity price leverage now).1
          = .rejected .drawdownKillSwitch
      ∧ ((checkTrade cfg s symbol side quantity price leverage now).2).killSwitchTriggered
          = true)
    ∧ (cfg.totalDrawdownLimit < (s.currentEquity - s.peakEquity) / s.peakEquity →
      (checkTrade cfg s symbol side quantity price leverage now).1
          = .allowed quantity .allChecksPassed
      ∧ (checkTrade cfg s symbol side quantity price leverage now).2 = s) := by
  have h3 : ¬(cfg.maxConcurrentPositions ≤ s.positions.length
      ∧ posGet s.positions symbol = none) := by
    rcases hp with h | h
    · exact fun hx => absurd hx.1 (not_le.mpr h)
    · exact fun hx => h hx.2
  have h4 : ¬(cfg.maxSingleAssetPct <
      (((posGet s.positions symbol).map (fun p => p.notionalValue)).getD 0
        + quantity * price) / s.currentEquity) := not_lt.mpr hc
  unfold checkTrade
  dsimp only
  simp only [hk, hh, Bool.false_eq_true, if_false, if_neg h3, if_neg h4]
  constructor
  · intro hd
    rw [if_pos hd]
    refine ⟨rfl, ?_⟩
    simp [triggerKillSwitch, hk]
  · intro hd
    rw [if_neg (not_le.mpr hd)]
    exact ⟨rfl, rfl⟩

theorem c1_drawdown_gate_after_concentration_pass_witness :
    c1State.killSwitchTriggered = false
    ∧ c1State.isHalted = false
    ∧ (c1State.positions.length < DEFAULT_RISK_CONFIG.maxConcurrentPositions
        ∨ posGet c1State.positions "BTCUSDT" ≠ none)
    ∧ (((posGet c1State.positions "BTCUSDT").map
        (fun p => p.notionalValue)).getD 0 + 100 * 1) / c1State.currentEquity
        ≤ DEFAULT_RISK_CONFIG.maxSingleAssetPct
    ∧ (c1State.currentEquity - c1State.peakEquity) / c1State.peakEquity
        ≤ DEFAULT_RISK_CONFIG.totalDrawdownLimit
    ∧ (checkTrade DEFAULT_RISK_CONFIG c1State "BTCUSDT" .long 100 1 1 0).1
        = .rejected .drawdownKillSwitch
    ∧ ((checkTrade DEFAULT_RISK_CONFIG c1State "BTCUSDT" .long 100 1 1 0).2).killSwitchTriggered
        = true := by
  have hk : c1State.killSwitchTriggered = false := by rw [c1State_eq]
  have hh : c1State.isHalted = false := by rw [c1State_eq]
  have hp : c1State.positions.length < DEFAULT_RISK_CONFIG.maxConcurrentPositions
      ∨ posGet c1State.positions "BTCUSDT" ≠ none := by
    left
    rw [c1State_eq]
    norm_num [DEFAULT_RISK_CONFIG]
  have hc : (((posGet c1State.positions "BTCUSDT").map
      (fun p => p.notionalValue)).getD 0 + 100 * 1) / c1State.currentEquity
      ≤ DEFAULT_RISK_CONFIG.maxSingleAssetPct := by
    rw [c1State_eq]
    norm_num [DEFAULT_RISK_CONFIG, posGet]
  have hd : (c1State.currentEquity - c1State.peakEquity) / c1State.peakEquity
      ≤ DEFAULT_RISK_CONFIG.totalDrawdownLimit := by
    rw [c1State_eq]
    norm_num [DEFAULT_RISK_CONFIG]
  exact ⟨hk, hh, hp, hc, hd,
    (c1_drawdown_gate_after_concentration_pass DEFAULT_RISK_CONFIG c1State
      "BTCUSDT" .long 100 1 1 0 hk hh hp hc).1 hd⟩

/-- Every public operation preserves the kill-switch/halt implication. -/
theorem killImpliesHalted_step (cfg : RiskConfig) (op : Op) (s : RiskState)
    (h : KillImpliesHalted s) : KillImpliesHalted (stepOp cfg op s) := by
  cases op with
  | checkTrade symbol side quantity price leverage now =>
    unfold stepOp checkTrade
    dsimp only
    split_ifs <;>
      first
        | exact h
        | exact killImpliesHalted_trigger _ _ _ h
  | openPosition symbol side entryPrice quantity leverage sl tp now =>
    intro hk
    exact h hk
  | closePosition symbol exitPrice now =>
    simp only [stepOp, closePosition]
    cases hpos : posGet s.positions symbol with
    | none =>
      simp only [hpos]
      exact h
    | some p =>
      simp only [hpos]
      refine killImpliesHalted_cdl _ _ _ ?_
      unfold KillImpliesHalted
      dsimp only
      split_ifs <;> exact h
  | updateEquity newEquity now =>
    unfold stepOp updateEquity
    dsimp only
    split_ifs <;> exact killImpliesHalted_cdl _ _ _ (fun hk => h hk)
  | triggerKillSwitch reason now =>
    exact killImpliesHalted_trigger _ _ _ h
  | resetKillSwitch newEquity =>
    unfold stepOp resetKillSwitch
    cases newEquity <;> intro hk <;> simp at hk
  | heartbeat now =>
    intro hk
    exact h hk

/-- C3: in every state reachable from construction by public operations,
a triggered kill switch implies trading is halted (the daily reset lifts a
halt only when the kill switch is off, and `triggerKillSwitch` sets both
flags together). -/
theorem c3_kill_implies_halted (cfg : RiskConfig) (s : RiskState)
    (hr : Reachable cfg s) (hk : s.killSwitchTriggered = true) :
    s.isHalted = true := by
  suffices h : KillImpliesHalted s from h hk
  clear hk
  induction hr with
  | init startingEquity now =>
    intro hx
    simp [mkRiskState] at hx
  | step op hs ih =>
    exact killImpliesHalted_step cfg op _ ih

theorem c3_kill_implies_halted_witness :
    Reachable DEFAULT_RISK_CONFIG
      (stepOp DEFAULT_RISK_CONFIG (.triggerKillSwitch "manual" 5)
        (mkRiskState 1000 0))
    ∧ (stepOp DEFAULT_RISK_CONFIG (.triggerKillSwitch "manual" 5)
        (mkRiskState 1000 0)).killSwitchTriggered = true
    ∧ (stepOp DEFAULT_RISK_CONFIG (.triggerKillSwitch "manual" 5)
        (mkRiskState 1000 0)).isHalted = true :=
  ⟨Reachable.step _ (Reachable.init 1000 0),
    by simp [stepOp, triggerKillSwitch, mkRiskState],
    c3_kill_implies_halted DEFAULT_RISK_CONFIG _
      (Reachable.step _ (Reachable.init 1000 0))
      (by simp [stepOp, triggerKillSwitch, mkRiskState])⟩

/-- C5 (counterexample): `resetKillSwitch` with a reseed value below the
running peak strictly lowers `peakEquity`, so the running maximum is not
monotone across all public operations. -/
theorem c5_reset_lowers_peak :
    (stepOp DEFAULT_RISK_CONFIG (.resetKillSwitch (some 500))
      (mkRiskState 1000 0)).peakEquity
      < (mkRiskState 1000 0).peakEquity := by
  simp only [stepOp, resetKillSwitch, mkRiskState]
  norm_num

/-- C5 (amended): `peakEquity` never decreases under any public operation
*except* `resetKillSwitch` with an explicit reseed equity (which overwrites
both equities with the operator-supplied value). -/
theorem c5_peak_monotone_except_reset (cfg : RiskConfig) (op : Op)
    (s : RiskState) (h : ∀ e : ℚ, op ≠ Op.resetKillSwitch (some e)) :
    s.peakEquity ≤ (stepOp cfg op s).peakEquity := by
  cases op with
  | checkTrade symbol side quantity price leverage now =>
    unfold stepOp checkTrade
    dsimp only
    split_ifs <;>
      simp [triggerKillSwitch_peakEquity]
  | openPosition symbol side entryPrice quantity leverage sl tp now =>
    exact le_refl _
  | closePosition symbol exitPrice now =>
    simp only [stepOp, closePosition]
    cases hpos : posGet s.positions symbol with
    | none =>
      simp only [hpos]
      exact le_refl _
    | some p =>
      simp only [hpos]
      rw [checkDrawdownLimits_peakEquity]
      dsimp only
      split_ifs with h1
      · exact le_of_lt h1
      · exact le_refl _
  | updateEquity newEquity now =>
    unfold stepOp updateEquity
    dsimp only
    rw [checkDrawdownLimits_peakEquity]
    split_ifs with h1 h2 h2 <;> simp_all <;> linarith
  | triggerKillSwitch reason now =>
    unfold stepOp
    rw [triggerKillSwitch_peakEquity]
  | resetKillSwitch newEquity =>
    cases newEquity with
    | none => exact le_refl _
    | some e => exact absurd rfl (h e)
  | heartbeat now =>
    exact le_refl _

theorem c5_peak_monotone_except_reset_witness :
    (∀ e : ℚ, Op.heartbeat 7 ≠ Op.resetKillSwitch (some e))
    ∧ (mkRiskState 1000 0).peakEquity
        ≤ (stepOp DEFAULT_RISK_CONFIG (.heartbeat 7)
            (mkRiskState 1000 0)).peakEquity :=
  ⟨fun e => by simp,
    c5_peak_monotone_except_reset DEFAULT_RISK_CONFIG (.heartbeat 7)
      (mkRiskState 1000 0) (fun e => by simp)⟩

/-- One open/close round trip on a position-free state appends exactly one
equity snapshot (`closePosition` has no history trim) and leaves the
position map empty again. -/
theorem c6OpenClose_history (cfg : RiskConfig) (s : RiskState)
    (h : s.positions = []) :
    (c6OpenClose cfg s).equityHistory.length = s.equityHistory.length + 1
    ∧ (c6OpenClose cfg s).positions = [] := by
  unfold c6OpenClose closePosition openPosition
  rw [h]
  simp only [posSet, posGet, posDelete, List.any_nil, List.find?,
    List.filter, if_false]
  norm_num [checkDrawdownLimits_equityHistory, checkDrawdownLimits_positions]
  constructor <;> split_ifs <;> simp

/-- `n` open/close round trips append exactly `n` snapshots. -/
theorem c6Iter_history (cfg : RiskConfig) (n : ℕ) :
    ∀ s : RiskState, s.positions = [] →
      (c6Iter cfg n s).equityHistory.length = s.equityHistory.length + n := by
  induction n with
  | zero => intro s _; rfl
  | succ n ih =>
    intro s hs
    have hstep := c6OpenClose_history cfg s hs
    calc (c6Iter cfg (n + 1) s).equityHistory.length
        = (c6Iter cfg n (c6OpenClose cfg s)).equityHistory.length := rfl
      _ = (c6OpenClose cfg s).equityHistory.length + n := ih _ hstep.2
      _ = s.equityHistory.length + 1 + n := by rw [hstep.1]
      _ = s.equityHistory.length + (n + 1) := by omega

/-- C6: after 1000 open/close round trips from construction the equity
history holds 1001 entries — `closePosition` appends without trimming
(only `updateEquity` trims to 1000), so the documented 1000-entry cap is
violated by reachable states. -/
theorem c6_history_exceeds_cap :
    (c6Iter DEFAULT_RISK_CONFIG 1000 (mkRiskState 1000 0)).equityHistory.length
      = 1001
    ∧ 1000 <
      (c6Iter DEFAULT_RISK_CONFIG 1000 (mkRiskState 1000 0)).equityHistory.length := by
  have h := c6Iter_history DEFAULT_RISK_CONFIG 1000 (mkRiskState 1000 0) rfl
  have h1 : (mkRiskState 1000 0).equityHistory.length = 1 := rfl
  rw [h1] at h
  omega

/-- Number of spans the window loop generates with `inSample = 100`,
`outOfSample = 50`: one per start value 0, 50, 100, … with
`start + 150 ≤ n` (the half-length break never fires for these parameters),
provided the fuel covers the loop. -/
theorem wfGo_length (fuel : ℕ) : ∀ start n : ℕ, n ≤ start + 50 * fuel →
    (wfGo 100 50 n fuel start).length =
      (if start + 150 ≤ n then (n - start - 150) / 50 + 1 else 0) := by
  induction fuel with
  | zero =>
    intro start n h
    have hn : ¬(start + 150 ≤ n) := by omega
    simp [wfGo, hn]
  | succ fuel ih =>
    intro start n h
    by_cases hc : start + (100 + 50) ≤ n
    · rw [wfGo, if_pos hc]
      dsimp only
      have hmin : (start + 100 + 50) ⊓ n = start + 150 := by omega
      rw [hmin]
      have hsub : start + 150 - (start + 100) = 50 := by omega
      rw [hsub, if_neg (by push_cast; norm_num)]
      rw [List.length_cons, ih (start + 50) n (by omega)]
      by_cases hc2 : start + 50 + 150 ≤ n
      · rw [if_pos hc2, if_pos (by omega)]
        omega
      · rw [if_neg hc2, if_pos (by omega)]
        omega
    · rw [wfGo, if_neg hc, if_neg (by omega)]
      rfl

/-- The `i`-th span generated with `inSample = 100`, `outOfSample = 50`
starts at `start + 50 i`, in-sample over the next 100 candles and
out-of-sample over the 50 after those. -/
theorem wfGo_get (fuel : ℕ) : ∀ start n : ℕ, n ≤ start + 50 * fuel →
    ∀ i (hi : i < (wfGo 100 50 n fuel start).length),
      (wfGo 100 50 n fuel start).get ⟨i, hi⟩ =
        ⟨start + 50 * i, start + 50 * i + 100, start + 50 * i + 100,
          start + 50 * i + 150⟩ := by
  induction fuel with
  | zero =>
    intro start n h i hi
    simp [wfGo] at hi
  | succ fuel ih =>
    intro start n h i hi
    by_cases hc : start + (100 + 50) ≤ n
    · have hmin : (start + 100 + 50) ⊓ n = start + 150 := by omega
      have hsub : start + 150 - (start + 100) = 50 := by omega
      have heq : wfGo 100 50 n (fuel + 1) start =
          WFSpan.mk start (start + 100) (start + 100) (start + 150) ::
            wfGo 100 50 n fuel (start + 50) := by
        rw [wfGo, if_pos hc]
        dsimp only
        rw [hmin, hsub, if_neg (by push_cast; norm_num)]
      rw [List.get_eq_getElem]
      rcases i with _ | j
      · simp [heq]
      · have hj : j < (wfGo 100 50 n fuel (start + 50)).length := by
          have hx := hi
          rw [heq] at hx
          simpa using hx
        have hrec := ih (start + 50) n (by omega) j hj
        rw [List.get_eq_getElem] at hrec
        simp only [heq, List.getElem_cons_succ]
        rw [hrec]
        have e1 : start + 50 + 50 * j = start + 50 * (j + 1) := by omega
        simp [e1]
    · exfalso
      rw [wfGo, if_neg hc] at hi
      simp at hi


/-- C8: for `inSamplePeriod = 100`, `outOfSamplePeriod = 50` and `N ≥ 150`
candles, the run produces exactly `(N − 150) / 50 + 1` windows; window `i`
starts at `50 i` with in-sample `[50i, 50i+100)` and out-of-sample
`[50i+100, 50i+150)`, so starts advance by 50 each iteration and successive
out-of-sample spans do not overlap. -/
theorem c8_window_count (candles : List Candle) (strategy : Strategy)
    (ib : ℚ) (mt : ℕ) (h : 150 ≤ candles.length) :
    ∃ ws : List WFWindow,
      wfRunWindows ⟨100, 50, ib, mt⟩ candles strategy = .ok ws
      ∧ ws.length = (candles.length - 150) / 50 + 1
      ∧ (∀ i (hi : i < ws.length),
          (ws.get ⟨i, hi⟩).windowIndex = i
          ∧ (ws.get ⟨i, hi⟩).inSampleStart = 50 * i
          ∧ (ws.get ⟨i, hi⟩).inSampleEnd = 50 * i + 100
          ∧ (ws.get ⟨i, hi⟩).outOfSampleStart = 50 * i + 100
          ∧ (ws.get ⟨i, hi⟩).outOfSampleEnd = 50 * i + 150)
      ∧ (∀ i (hi1 : i < ws.length) (hi2 : i + 1 < ws.length),
          (ws.get ⟨i, hi1⟩).outOfSampleEnd
            ≤ (ws.get ⟨i + 1, hi2⟩).outOfSampleStart) := by
  have hfuel : candles.length ≤ 0 + 50 * (candles.length + 1) := by omega
  have hlen := wfGo_length (candles.length + 1) 0 candles.length hfuel
  have hget := wfGo_get (candles.length + 1) 0 candles.length hfuel
  rw [if_pos (by omega)] at hlen
  have hspanlen : (wfSpans 100 50 candles.length).length
      = (candles.length - 150) / 50 + 1 := by
    rw [wfSpans, hlen]
    omega
  refine ⟨((wfSpans 100 50 candles.length).enum).map
      (fun p => mkWFWindow ib candles strategy p.1 p.2), ?_, ?_, ?_, ?_⟩
  · simp only [wfRunWindows]
    rw [if_neg (show ¬(candles.length < 100 + 50) by omega)]
  · rw [List.length_map, List.enum_length, hspanlen]
  · intro i hi
    have hi2 : i < (wfSpans 100 50 candles.length).length := by
      simpa using hi
    have hspan := hget i (by simpa [wfSpans] using hi2)
    rw [List.get_eq_getElem] at hspan ⊢
    simp only [List.getElem_map, List.getElem_enum, wfSpans]
    rw [hspan]
    simp [mkWFWindow]
  · intro i hi1 hi2
    have ha : i < (wfSpans 100 50 candles.length).length := by simpa using hi1
    have hb : i + 1 < (wfSpans 100 50 candles.length).length := by simpa using hi2
    have h1 := hget i (by simpa [wfSpans] using ha)
    have h2 := hget (i + 1) (by simpa [wfSpans] using hb)
    rw [List.get_eq_getElem] at h1 h2 ⊢
    rw [List.get_eq_getElem]
    simp only [List.getElem_map, List.getElem_enum, wfSpans]
    rw [h1, h2]
    simp [mkWFWindow]
    omega

theorem c8_window_count_witness :
    150 ≤ flatCandles.length
    ∧ ∃ ws : List WFWindow,
        wfRunWindows ⟨100, 50, 1000, 30⟩ flatCandles holdStrategy = .ok ws
        ∧ ws.length = (flatCandles.length - 150) / 50 + 1
        ∧ (∀ i (hi : i < ws.length),
            (ws.get ⟨i, hi⟩).windowIndex = i
            ∧ (ws.get ⟨i, hi⟩).inSampleStart = 50 * i
            ∧ (ws.get ⟨i, hi⟩).inSampleEnd = 50 * i + 100
            ∧ (ws.get ⟨i, hi⟩).outOfSampleStart = 50 * i + 100
            ∧ (ws.get ⟨i, hi⟩).outOfSampleEnd = 50 * i + 150)
        ∧ (∀ i (hi1 : i < ws.length) (hi2 : i + 1 < ws.length),
            (ws.get ⟨i, hi1⟩).outOfSampleEnd
              ≤ (ws.get ⟨i + 1, hi2⟩).outOfSampleStart) :=
  ⟨by simp [flatCandles],
    c8_window_count flatCandles holdStrategy 1000 30 (by simp [flatCandles])⟩

/-- A fold step that appends exactly one element per input grows the
accumulator by the input length. -/
theorem foldl_len {α β : Type} (g : List β → α → List β)
    (hg : ∀ acc x, (g acc x).length = acc.length + 1) :
    ∀ (l : List α) (acc : List β),
      (l.foldl g acc).length = acc.length + l.length := by
  intro l
  induction l with
  | nil => intro acc; simp
  | cons x xs ih =>
    intro acc
    rw [List.foldl_cons, ih, hg]
    simp only [List.length_cons]
    omega

/-- Every branch of the ADX loop body pushes exactly one value to each of
the three output series. -/
theorem adxStep_len (period : ℕ) (tr pd md : List ℚ) (st : ADXState) (i : ℕ) :
    ((adxStep period tr pd md st i).adx.length = st.adx.length + 1)
    ∧ ((adxStep period tr pd md st i).plusDI.length = st.plusDI.length + 1)
    ∧ ((adxStep period tr pd md st i).minusDI.length = st.minusDI.length + 1) := by
  unfold adxStep
  dsimp only
  split_ifs <;> simp

/-- The ADX main loop emits one value per index for each output series. -/
theorem adx_foldl_len (period : ℕ) (tr pd md : List ℚ) :
    ∀ (l : List ℕ) (st : ADXState),
      ((l.foldl (adxStep period tr pd md) st).adx.length
          = st.adx.length + l.length)
      ∧ ((l.foldl (adxStep period tr pd md) st).plusDI.length
          = st.plusDI.length + l.length)
      ∧ ((l.foldl (adxStep period tr pd md) st).minusDI.length
          = st.minusDI.length + l.length) := by
  intro l
  induction l with
  | nil => intro st; simp
  | cons x xs ih =>
    intro st
    have hs := adxStep_len period tr pd md st x
    have hr := ih (adxStep period tr pd md st x)
    simp only [List.foldl_cons, List.length_cons]
    refine ⟨?_, ?_, ?_⟩
    · rw [hr.1, hs.1]; omega
    · rw [hr.2.1, hs.2.1]; omega
    · rw [hr.2.2, hs.2.2]; omega

/-- `EMA` output is index-aligned with its input. -/
theorem EMA_length (candles : List Candle) (period : ℕ) :
    (EMA candles period).length = candles.length := by
  unfold EMA
  dsimp only
  rw [foldl_len _ (by intro acc x; simp)]
  simp [List.enum_length]

/-- C9 (counterexample): `ATR` applied to the empty candle sequence returns
the pre-seeded `[0]`, a length-1 output for a length-0 input, so not every
indicator is length-preserving on the empty sequence. -/
theorem c9_atr_empty_length :
    (ATR ([] : List Candle) 14).length = 1
    ∧ (ATR ([] : List Candle) 14).length ≠ ([] : List Candle).length := by
  decide

/-- C9 (amended): `SMA`, `EMA`, `RSI`, `MACD` and `ADX` return outputs of
exactly the input length for every candle sequence (the empty one
included); `ATR` does so for every *non-empty* sequence, its output on the
empty sequence having length 1 (see the counterexample). -/
theorem c9_indicator_lengths (candles : List Candle)
    (period fastPeriod slowPeriod signalPeriod : ℕ) :
    (SMA candles period).length = candles.length
    ∧ (EMA candles period).length = candles.length
    ∧ (RSI candles period).length = candles.length
    ∧ (MACD candles fastPeriod slowPeriod signalPeriod).macd.length
        = candles.length
    ∧ (MACD candles fastPeriod slowPeriod signalPeriod).signal.length
        = candles.length
    ∧ (MACD candles fastPeriod slowPeriod signalPeriod).histogram.length
        = candles.length
    ∧ (ADX candles period).adx.length = candles.length
    ∧ (ADX candles period).plusDI.length = candles.length
    ∧ (ADX candles period).minusDI.length = candles.length
    ∧ (candles ≠ [] → (ATR candles period).length = candles.length) := by
  have hmacd : (MACD candles fastPeriod slowPeriod signalPeriod).macd.length
      = candles.length := by
    unfold MACD
    dsimp only
    simp [List.enum_length, EMA_length]
  have hsig : (MACD candles fastPeriod slowPeriod signalPeriod).signal.length
      = candles.length := by
    unfold MACD
    dsimp only
    rw [foldl_len _ (by intro acc x; simp)]
    simp [List.enum_length, EMA_length]
  refine ⟨?_, EMA_length candles period, ?_, hmacd, hsig, ?_, ?_, ?_, ?_, ?_⟩
  · unfold SMA
    simp
  · unfold RSI
    dsimp only
    simp
  · -- histogram
    unfold MACD at hsig ⊢
    dsimp only at hsig ⊢
    simp [List.enum_length, EMA_length]
  · unfold ADX
    dsimp only
    split_ifs with h1
    · simp
    · rw [(adx_foldl_len _ _ _ _ _ _).1]
      simp
  · unfold ADX
    dsimp only
    split_ifs with h1
    · simp
    · rw [(adx_foldl_len _ _ _ _ _ _).2.1]
      simp
  · unfold ADX
    dsimp only
    split_ifs with h1
    · simp
    · rw [(adx_foldl_len _ _ _ _ _ _).2.2]
      simp
  · intro hne
    unfold ATR
    rw [foldl_len _ (by intro acc x; simp)]
    have : 1 ≤ candles.length := List.length_pos.mpr hne
    simp
    omega

theorem c9_indicator_lengths_witness :
    flatCandles ≠ []
    ∧ (ATR flatCandles 14).length = flatCandles.length :=
  ⟨by simp [flatCandles],
    (c9_indicator_lengths flatCandles 14 12 26 9).2.2.2.2.2.2.2.2.2
      (by simp [flatCandles])⟩

/-- Appending a buy to an even-length alternating ledger keeps it
alternating. -/
theorem tradesAlternate_snoc_buy (l : List Trade) (t : Trade)
    (ht : t.type = .buy) (ha : TradesAlternate l) (he : l.length % 2 = 0) :
    TradesAlternate (l ++ [t]) := by
  intro i hi
  rw [List.length_append, List.length_singleton] at hi
  rw [List.get_eq_getElem]
  by_cases hil : i < l.length
  · rw [List.getElem_append_left hil]
    have := ha i hil
    rw [List.get_eq_getElem] at this
    exact this
  · have hie : i = l.length := by omega
    subst hie
    rw [List.getElem_append_right (le_refl _)]
    simp only [Nat.sub_self, List.getElem_cons_zero]
    rw [ht, if_pos he]

/-- Appending a sell to an odd-length alternating ledger keeps it
alternating. -/
theorem tradesAlternate_snoc_sell (l : List Trade) (t : Trade)
    (ht : t.type = .sell) (ha : TradesAlternate l) (he : l.length % 2 = 1) :
    TradesAlternate (l ++ [t]) := by
  intro i hi
  rw [List.length_append, List.length_singleton] at hi
  rw [List.get_eq_getElem]
  by_cases hil : i < l.length
  · rw [List.getElem_append_left hil]
    have := ha i hil
    rw [List.get_eq_getElem] at this
    exact this
  · have hie : i = l.length := by omega
    subst hie
    rw [List.getElem_append_right (le_refl _)]
    simp only [Nat.sub_self, List.getElem_cons_zero]
    rw [ht, if_neg (by omega)]

/-- Loop invariant of `Backtester.run`: with every close positive, a flat
state with positive balance has an even alternating ledger and a held
position an odd one; either way the final ledger alternates. -/
theorem btLoop_alternates (strategy : Strategy) :
    ∀ (candles processed : List Candle) (st : BTState),
      (∀ c ∈ candles, 0 < c.close) →
      TradesAlternate st.trades →
      ((st.position = 0 ∧ 0 < st.balance ∧ st.trades.length % 2 = 0)
        ∨ (0 < st.position ∧ st.trades.length % 2 = 1)) →
      TradesAlternate (btLoop strategy processed candles st).trades := by
  intro candles
  induction candles with
  | nil =>
    intro processed st _ ha _
    exact ha
  | cons c rest ih =>
    intro processed st hpos ha hinv
    have hc : 0 < c.close := hpos c (by simp)
    have hrest : ∀ x ∈ rest, 0 < x.close := fun x hx => hpos x (by simp [hx])
    rw [btLoop]
    dsimp only
    by_cases hb : strategy (processed ++ [c]) st.position = .buy ∧ st.position = 0
    · rw [if_pos hb]
      rcases hinv with ⟨hp0, hbal, hev⟩ | ⟨hppos, _⟩
      · apply ih
        · exact hrest
        · exact tradesAlternate_snoc_buy _ _ rfl ha hev
        · right
          refine ⟨div_pos hbal hc, ?_⟩
          rw [List.length_append, List.length_singleton]
          omega
      · exact absurd hb.2 (ne_of_gt hppos)
    · by_cases hs : strategy (processed ++ [c]) st.position = .sell ∧ 0 < st.position
      · rw [if_neg hb, if_pos hs]
        rcases hinv with ⟨hp0, _, _⟩ | ⟨hppos, hodd⟩
        · exact absurd hp0 (ne_of_gt hs.2)
        · apply ih
          · exact hrest
          · exact tradesAlternate_snoc_sell _ _ rfl ha hodd
          · left
            refine ⟨rfl, mul_pos hppos hc, ?_⟩
            rw [List.length_append, List.length_singleton]
            omega
      · rw [if_neg hb, if_neg hs]
        exact ih (processed ++ [c]) _ hrest ha hinv

/-- C10 (amended): with a positive initial balance and every candle close
positive, the ledger of `Backtester.run` strictly alternates starting with
a BUY (even indices are buys, odd indices sells), because a buy executes
only when flat — and flatness then implies a positive balance, hence a
positive bought quantity — and a sell only when holding; consequently each
(2k, 2k+1) pair used for win/loss classification is a buy matched to its
immediately following sell. -/
theorem c10_trades_alternate (initialBalance : ℚ) (candles : List Candle)
    (strategy : Strategy) (hb : 0 < initialBalance)
    (hc : ∀ c ∈ candles, 0 < c.close) :
    TradesAlternate (backtestRun initialBalance candles strategy).trades := by
  unfold backtestRun
  dsimp only
  apply btLoop_alternates strategy candles []
    ⟨initialBalance, 0, [], [initialBalance]⟩ hc
  · intro i hi
    simp at hi
  · left
    exact ⟨rfl, hb, rfl⟩

/-- C10 (counterexample): with closes 1, 0, 5, 5 and a strategy that buys
when flat and sells when holding, the sell at the zero close wipes the
balance to 0, the next buy purchases quantity 0 leaving the position flat,
and a second consecutive BUY executes: the ledger is
BUY, SELL, BUY, BUY, which does not alternate. -/
theorem c10_trades_not_alternating :
    (backtestRun 10000 c10Candles c10Strategy).trades.map (fun t => t.type)
      = [.buy, .sell, .buy, .buy]
    ∧ ¬ TradesAlternate (backtestRun 10000 c10Candles c10Strategy).trades := by
  have hmap : (backtestRun 10000 c10Candles c10Strategy).trades.map
      (fun t => t.type) = [.buy, .sell, .buy, .buy] := by
    norm_num [backtestRun, btLoop, c10Candles, c10Strategy]
  refine ⟨hmap, ?_⟩
  intro hAlt
  have hlen : (backtestRun 10000 c10Candles c10Strategy).trades.length = 4 := by
    have h := congrArg List.length hmap
    simpa using h
  have h4 : 3 < (backtestRun 10000 c10Candles c10Strategy).trades.length := by
    omega
  have hs := hAlt 3 h4
  rw [List.get_eq_getElem] at hs
  norm_num at hs
  have hm : ((backtestRun 10000 c10Candles c10Strategy).trades.map
      (fun t => t.type)).get ⟨3, by simpa using h4⟩ = TradeType.buy := by
    rw [List.get_of_eq hmap]
    rfl
  rw [List.get_eq_getElem, List.getElem_map] at hm
  rw [hs] at hm
  exact absurd hm (by simp)

theorem c10_trades_alternate_witness :
    (0 : ℚ) < 10
    ∧ (∀ c ∈ ([⟨0, 1, 1, 1, 2, 1⟩] : List Candle), 0 < c.close)
    ∧ TradesAlternate (backtestRun 10 [⟨0, 1, 1, 1, 2, 1⟩] holdStrategy).trades :=
  ⟨by norm_num,
    by
      intro c hc
      simp only [List.mem_singleton] at hc
      rw [hc]
      norm_num,
    c10_trades_alternate 10 [⟨0, 1, 1, 1, 2, 1⟩] holdStrategy (by norm_num)
      (by
        intro c hc
        simp only [List.mem_singleton] at hc
        rw [hc]
        norm_num)⟩

/-- C7 (counterexample): for a single window with out-of-sample return +5%,
the source computes `oosSharpe = 5` (its `stdDev` defaults to 1 when only
one window exists), while the spec's population-stdev formula — whose
standard deviation over one sample is 0 — prescribes 0. -/
theorem c7_sharpe_not_population_stdev :
    aggregateOosSharpe [c7Window] = 5
    ∧ specOosSharpe [c7Window] = 0
    ∧ aggregateOosSharpe [c7Window] ≠ specOosSharpe [c7Window] := by
  have h1 : aggregateOosSharpe [c7Window] = 5 := by
    unfold aggregateOosSharpe oosReturnsOf c7Window zeroBacktestResult
    norm_num [Real.sqrt_one]
  have h2 : specOosSharpe [c7Window] = 0 := by
    unfold specOosSharpe oosReturnsOf c7Window zeroBacktestResult
    norm_num [Real.sqrt_zero]
  refine ⟨h1, h2, ?_⟩
  rw [h1, h2]
  norm_num

/-- C7 (amended): the aggregated `oosSharpe` uses the *sample* standard
deviation (divisor `n − 1`) of the per-window out-of-sample returns, not
the population one: for `n = 1` the deviation defaults to 1 and the Sharpe
equals the single window return; for `n ≥ 2` it is
`mean / sampleStdDev * sqrt(n)`, and `0` when that sample deviation is 0. -/
theorem c7_sharpe_sample_stdev (windows : List WFWindow) :
    (windows.length = 1 →
      aggregateOosSharpe windows = (((oosReturnsOf windows).headD 0 : ℚ) : ℝ))
    ∧ (2 ≤ windows.length →
      (sampleStdDev (oosReturnsOf windows) = 0 → aggregateOosSharpe windows = 0)
      ∧ (sampleStdDev (oosReturnsOf windows) ≠ 0 →
        aggregateOosSharpe windows
          = meanReturn (oosReturnsOf windows)
            / sampleStdDev (oosReturnsOf windows)
            * Real.sqrt (windows.length : ℝ))) := by
  constructor
  · intro h1
    have hlen : (oosReturnsOf windows).length = 1 := by
      simp [oosReturnsOf, h1]
    obtain ⟨r, hr⟩ := List.length_eq_one.mp hlen
    unfold aggregateOosSharpe
    dsimp only
    rw [hr]
    norm_num [Real.sqrt_one]
  · intro h2
    have hlen2 : 1 < (oosReturnsOf windows).length := by
      simp only [oosReturnsOf, List.length_map]
      omega
    have hlen3 : (oosReturnsOf windows).length = windows.length := by
      simp [oosReturnsOf]
    unfold aggregateOosSharpe sampleStdDev meanReturn
    dsimp only
    rw [if_pos hlen2]
    constructor
    · intro hz
      rw [hz, if_neg (lt_irrefl 0)]
    · intro hnz
      have hpos : 0 < Real.sqrt
          (((oosReturnsOf windows).map
            (fun r => ((r : ℚ) - ((oosReturnsOf windows).sum : ℚ)
              / ((oosReturnsOf windows).length : ℝ)) ^ 2)).sum
            / (((oosReturnsOf windows).length : ℝ) - 1)) :=
        lt_of_le_of_ne (Real.sqrt_nonneg _) (Ne.symm hnz)
      rw [if_pos hpos, hlen3]

theorem c7_sharpe_sample_stdev_witness :
    ([c7Window] : List WFWindow).length = 1
    ∧ aggregateOosSharpe [c7Window]
        = (((oosReturnsOf [c7Window]).headD 0 : ℚ) : ℝ) :=
  ⟨rfl, (c7_sharpe_sample_stdev [c7Window]).1 rfl⟩

end BybitTrader

